import Mathlib

/-!
Verification of `x_month_export.py`, a tool that exports all posts of an
account for one calendar month through a paginated timeline API.

The development shallowly embeds the Python source:
* `iso_month_bounds` (source lines 14-20) via a proleptic-Gregorian
  day count, producing the two instants as epoch second counts;
* `backoff_sleep` (lines 22-32) as the number of seconds slept;
* the pagination loop of `fetch_user_posts_for_month` (lines 120-220) as a
  step function `processPage` on an explicit `FetchState`, driven by a finite
  script of server responses (`fetchLoop`);
* the window guardrail `in_window` / final filter (lines 222-230).

Raised Python exceptions of the modelled fragments are made explicit with
`PyRes`; a `created_at` string field is abstracted by its parse outcome
(`TsField`): absent or empty (falsy), present but unparseable (ValueError
from `datetime.fromisoformat`), or parsed to a timestamp.
-/

/-- Outcome of a Python expression that can raise: `exn` models a raised
exception (`ValueError`), `ok` a normally computed value. -/
inductive PyRes (α : Type) where
  | ok (val : α)
  | exn
deriving DecidableEq, Repr

/-- The `created_at` field of a post, abstracted by its parse outcome:
`missing` = key absent or empty string (falsy, so `p.get("created_at")`
guards skip it), `malformed` = present but `datetime.fromisoformat` raises,
`parsed t` = parses to the instant `t` (epoch seconds). -/
inductive TsField where
  | missing
  | malformed
  | parsed (t : Int)
deriving DecidableEq, Repr

/-- A post object: only `created_at` is ever interpreted by the core; the
rest of the record is opaque and carried by an identifier. -/
structure Post where
  pid : Nat
  created_at : TsField
deriving DecidableEq, Repr

/-- One decoded 200 payload: `data` (with `payload.get("data", []) or []`
already applied, so a missing or null list is `[]`), `meta.result_count`
(`none` when the key is absent from `meta`), and `meta.next_token`. -/
structure Page where
  data : List Post
  result_count : Option Int
  next_token : Option String
deriving DecidableEq, Repr

/-- One server response consumed by an iteration of the fetch loop:
a decoded 200 page, a throttle (status 429 or 503, with the value of the
`retry-after` header if present), or any other error status. -/
inductive Response where
  | ok (pg : Page)
  | throttle (retry_after : Option String)
  | httpError (status : Nat)
deriving DecidableEq, Repr

/-- The loop state of `fetch_user_posts_for_month`: `all_posts`,
`next_token`, `seen_tokens` (source line 112; the Python set is modelled as
a duplicate-free list) and `page_idx`. -/
structure FetchState where
  acc : List Post
  nextToken : Option String
  seenTokens : List String
  pageIdx : Nat
deriving DecidableEq, Repr

/-- The state on entry to the loop: lines 108-118 of the source. -/
def initState : FetchState := ⟨[], none, [], 0⟩

/-- `TsField.parsedVal` extracts the successfully parsed instant, if any. -/
def TsField.parsedVal : TsField → Option Int
  | .parsed t => some t
  | _ => none

/-- `TsField.isMalformed` is true exactly when `datetime.fromisoformat`
would raise on the (present, non-empty) string. -/
def TsField.isMalformed : TsField → Bool
  | .malformed => true
  | _ => false

/-- Running minimum used to fold the generator fed to `min(..., default=None)`. -/
def foldMin : Option Int → Int → Option Int
  | none, t => some t
  | some m, t => some (min m t)

/-- Source lines 183-187: `min((fromisoformat(p.get("created_at")) for p in
posts if p.get("created_at")), default=None)`.  Items with a falsy
`created_at` are skipped by the generator guard; if any remaining item's
`created_at` fails to parse, `min` propagates the `ValueError` (`exn`);
otherwise the minimum of the parsed instants (or `none` for an empty
generator, the `default`). -/
def oldestDt (posts : List Post) : PyRes (Option Int) :=
  if posts.any (fun p => p.created_at.isMalformed) then .exn
  else .ok ((posts.filterMap (fun p => p.created_at.parsedVal)).foldl foldMin none)

/-- Result of processing one 200 page: `stop acc` models `break` with the
accumulated list `acc`, `next st` models falling through to the next
iteration with updated state. -/
inductive StepRes where
  | stop (acc : List Post)
  | next (st : FetchState)
deriving DecidableEq, Repr

/-- Source lines 197-210: the cursor handling at the end of a 200 iteration.
`acc2` is the accumulation including the current page.  A missing
`next_token` breaks; a token already in `seen_tokens` breaks (loop
protection); otherwise the token is added to `seen_tokens` and becomes the
current token. -/
def cursorDecision (st : FetchState) (acc2 : List Post) (tok? : Option String) : StepRes :=
  match tok? with
  | none => .stop acc2
  | some tok =>
    if tok ∈ st.seenTokens then .stop acc2
    else .next ⟨acc2, some tok, tok :: st.seenTokens, st.pageIdx + 1⟩

/-- Source lines 128-210: the body of the fetch loop for a 200 response.
`result_count := meta.get("result_count", 0)`; the page's items are
appended unconditionally (line 143); then the stop conditions in source
order: (1) empty `data` or `result_count == 0`, (2) fewer items than
`max_results`, (3) oldest parsed instant before the window start, where a
`ValueError` while computing the oldest instant is caught and the condition
skipped (lines 192-195), and (4) the cursor handling `cursorDecision`.
The incremental save (lines 146-164) only performs I/O and never affects
control flow (its failures are swallowed), so it has no counterpart here. -/
def processPage (ws : Int) (max_results : Nat) (st : FetchState) (pg : Page) : StepRes :=
  let posts := pg.data
  let result_count := pg.result_count.getD 0
  let acc2 := st.acc ++ posts
  if posts = [] ∨ result_count = 0 then .stop acc2
  else if posts.length < max_results then .stop acc2
  else
    match oldestDt posts with
    | .ok (some t) =>
      if t < ws then .stop acc2 else cursorDecision st acc2 pg.next_token
    | _ => cursorDecision st acc2 pg.next_token

/-- The accumulation carried by a step result (the `all_posts` the loop
would return if it broke now, resp. carries into the next iteration). -/
def StepRes.accOf : StepRes → List Post
  | .stop a => a
  | .next st => st.acc

/-- Outcome of running the fetch loop against a finite response script:
`done acc` models leaving the `while True` via `break` with `all_posts =
acc`; `outOfScript` marks that the script ended while the loop would have
issued another request. -/
inductive FetchOutcome where
  | done (acc : List Post)
  | outOfScript (st : FetchState)
deriving DecidableEq, Repr

/-- Source lines 120-220: the `while True` loop, one script entry consumed
per request.  A 200 page goes through `processPage`; 429/503 backs off and
retries the same request with unchanged state (lines 212-217, `continue`);
any other status logs and breaks with the current accumulation
(lines 218-220). -/
def fetchLoop (ws : Int) (m : Nat) : FetchState → List Response → FetchOutcome
  | st, [] => .outOfScript st
  | st, .ok pg :: rs =>
    match processPage ws m st pg with
    | .stop acc => .done acc
    | .next st2 => fetchLoop ws m st2 rs
  | st, .throttle _ :: rs => fetchLoop ws m st rs
  | st, .httpError _ :: _ => .done st.acc

/-- The pagination cursor (`params.get("pagination_token")`) attached to
each request that receives a 200 response, in request order. -/
def okRequestTokens (ws : Int) (m : Nat) : FetchState → List Response → List (Option String)
  | _, [] => []
  | st, .ok pg :: rs =>
    st.nextToken ::
      (match processPage ws m st pg with
       | .stop _ => []
       | .next st2 => okRequestTokens ws m st2 rs)
  | st, .throttle _ :: rs => okRequestTokens ws m st rs
  | _, .httpError _ :: _ => []

/-- A script consisting only of 200 responses whose issued cursors all come
from the finite set `S` (the "finitely many distinct server-issued cursors,
no throttling" regime). -/
def respOkWithTokens (S : Finset String) : Response → Bool
  | .ok pg =>
    match pg.next_token with
    | none => true
    | some t => decide (t ∈ S)
  | _ => false

/-- Source lines 223-228 (`in_window`): a falsy `created_at` is kept
(`return True`); otherwise `datetime.fromisoformat` is called with no
exception handler, so a malformed value raises; a parsed instant is kept
iff `window_start_dt <= dt < window_end_dt`. -/
def in_window (ws we : Int) (p : Post) : PyRes Bool :=
  match p.created_at with
  | .missing => .ok true
  | .malformed => .exn
  | .parsed t => .ok (decide (ws ≤ t ∧ t < we))

/-- Source line 230: `[p for p in all_posts if in_window(p)]`; the first
raising element aborts the comprehension. -/
def windowFilter (ws we : Int) : List Post → PyRes (List Post)
  | [] => .ok []
  | p :: ps =>
    match in_window ws we p with
    | .exn => .exn
    | .ok b =>
      match windowFilter ws we ps with
      | .exn => .exn
      | .ok l => .ok (if b then p :: l else l)

/-- The predicate `in_window` actually decides on a non-raising post. -/
def keep_pred (ws we : Int) (p : Post) : Bool :=
  match p.created_at with
  | .missing => true
  | .malformed => false
  | .parsed t => decide (ws ≤ t ∧ t < we)

/-- `fetch_user_posts_for_month` end to end against a response script:
run the loop from the initial state, then apply the window guardrail
(line 230) to the accumulation.  `none` when the script is too short. -/
def fetch_user_posts_for_month (ws we : Int) (m : Nat) (script : List Response) :
    Option (PyRes (List Post)) :=
  match fetchLoop ws m initState script with
  | .done acc => some (windowFilter ws we acc)
  | .outOfScript _ => none

/-- `calendar.isleap` as used by `calendar.monthrange`. -/
def isleap (y : Nat) : Bool :=
  y % 4 = 0 && (y % 100 ≠ 0 || y % 400 = 0)

/-- `calendar.monthrange(y, m)[1]`: the number of days of month `m` of
year `y` (0 for an out-of-range month, which `monthrange` would reject). -/
def monthrange_days (y m : Nat) : Nat :=
  match m with
  | 1 => 31
  | 2 => if isleap y then 29 else 28
  | 3 => 31
  | 4 => 30
  | 5 => 31
  | 6 => 30
  | 7 => 31
  | 8 => 31
  | 9 => 30
  | 10 => 31
  | 11 => 30
  | 12 => 31
  | _ => 0

/-- Days of the proleptic Gregorian calendar strictly before year `y`
(`datetime.toordinal` convention, counting from year 1). -/
def days_before_year (y : Nat) : Nat :=
  365 * (y - 1) + (y - 1) / 4 - (y - 1) / 100 + (y - 1) / 400

/-- Days of year `y` strictly before month `m`. -/
def days_before_month (y : Nat) : Nat → Nat
  | 0 => 0
  | 1 => 0
  | n + 2 => days_before_month y (n + 1) + monthrange_days y (n + 1)

/-- `datetime(y, m, d).toordinal()`: day number of the proleptic Gregorian
calendar, day 1 = 0001-01-01. -/
def toordinal (y m d : Nat) : Nat :=
  days_before_year y + days_before_month y m + d

/-- The instant `datetime(y, m, d, hh, mi, ss, tzinfo=utc)` as a second
count (`toordinal` days plus the time of day). -/
def dt_epoch (y m d hh mi ss : Nat) : Nat :=
  toordinal y m d * 86400 + hh * 3600 + mi * 60 + ss

/-- Source lines 14-20 (`iso_month_bounds`): start is midnight UTC of the
1st, end is `datetime(y, m, last_day, 23, 59, 59) + timedelta(seconds=1)`.
The instants are modelled directly; the source serializes them as
`Z`-suffixed ISO-8601 strings, a formatting step elided here. -/
def iso_month_bounds (y m : Nat) : Nat × Nat :=
  (dt_epoch y m 1 0 0 0,
   dt_epoch y m (monthrange_days y m) 23 59 59 + 1)

/-- Source line 273 of `main`: the `max_per_request` argument passed to
`fetch_user_posts_for_month` (and hence the request's `max_results`) is
`min(max(args.per_page, 10), 100)`. -/
def max_per_request_arg (per_page : Int) : Int :=
  min (max per_page 10) 100

/-- What the spec's words ask of the clamp: "clamped into the range 1-100".
Kept separate from `max_per_request_arg` (translated from the source) for
comparison. -/
def spec_clamp_1_100 (per_page : Int) : Int :=
  min (max per_page 1) 100

/-- The minimum *parseable* creation instant of a page's items, as the
spec's stop condition (c) describes it: malformed items are simply ignored.
Kept separate from `oldestDt` (translated from the source) for
comparison. -/
def minParseable (posts : List Post) : Option Int :=
  (posts.filterMap (fun p => p.created_at.parsedVal)).foldl foldMin none

/-- A post whose `created_at` is absent (or the empty string). -/
def postMissing (n : Nat) : Post := ⟨n, TsField.missing⟩

/-- A post created at instant `t`. -/
def postAt (n : Nat) (t : Int) : Post := ⟨n, TsField.parsed t⟩

/-- A post whose `created_at` is present but unparseable. -/
def postMal : Post := ⟨7, TsField.malformed⟩

/-- A full page (2 items) whose minimum *parseable* `created_at` (50) lies
before a window start of 100, but which also carries one unparseable
`created_at`. -/
def pgC4 : Page := ⟨[postAt 1 50, postMal], some 2, some "a"⟩

/-- A full page of 2 items without timestamps, cursor `"a"`. -/
def pgW1 : Page := ⟨[postMissing 1, postMissing 2], some 2, some "a"⟩

/-- A full page of 2 items without timestamps, cursor `"b"`. -/
def pgW2 : Page := ⟨[postMissing 3, postMissing 4], some 2, some "b"⟩

/-- A short page (1 item) without timestamps and without a cursor. -/
def pgW3 : Page := ⟨[postMissing 5], some 1, none⟩

/-- A page with one item, a fresh cursor, and a `meta` lacking
`result_count`. -/
def pgC10 : Page := ⟨[postMissing 9], none, some "n"⟩

/-! ### Helper lemmas about one 200-page step -/

lemma cursorDecision_accOf (st : FetchState) (a : List Post) (tok? : Option String) :
    (cursorDecision st a tok?).accOf = a := by
  cases tok? with
  | none => rfl
  | some tok =>
    simp only [cursorDecision]
    split <;> rfl

lemma cursorDecision_none (st : FetchState) (a : List Post) :
    cursorDecision st a none = StepRes.stop a := rfl

lemma cursorDecision_seen (st : FetchState) (a : List Post) (tok : String)
    (h : tok ∈ st.seenTokens) :
    cursorDecision st a (some tok) = StepRes.stop a := by
  simp [cursorDecision, h]

lemma cursorDecision_fresh (st : FetchState) (a : List Post) (tok : String)
    (h : tok ∉ st.seenTokens) :
    cursorDecision st a (some tok) =
      StepRes.next ⟨a, some tok, tok :: st.seenTokens, st.pageIdx + 1⟩ := by
  simp [cursorDecision, h]

lemma processPage_accOf (ws : Int) (m : Nat) (st : FetchState) (pg : Page) :
    (processPage ws m st pg).accOf = st.acc ++ pg.data := by
  simp only [processPage]
  split
  · rfl
  · split
    · rfl
    · split
      · split
        · rfl
        · exact cursorDecision_accOf st (st.acc ++ pg.data) pg.next_token
      · exact cursorDecision_accOf st (st.acc ++ pg.data) pg.next_token

lemma processPage_stop_early (ws : Int) (m : Nat) (st : FetchState) (pg : Page)
    (h : pg.data = [] ∨ pg.result_count.getD 0 = 0 ∨ pg.data.length < m) :
    processPage ws m st pg = StepRes.stop (st.acc ++ pg.data) := by
  simp only [processPage]
  rcases h with h | h | h
  · rw [if_pos (Or.inl h)]
  · rw [if_pos (Or.inr h)]
  · by_cases h12 : pg.data = [] ∨ pg.result_count.getD 0 = 0
    · rw [if_pos h12]
    · rw [if_neg h12, if_pos h]

lemma processPage_no_early_stop (ws : Int) (m : Nat) (st : FetchState) (pg : Page)
    (h1 : ¬(pg.data = [] ∨ pg.result_count.getD 0 = 0))
    (h2 : ¬ pg.data.length < m)
    (h3 : ∀ t, oldestDt pg.data = PyRes.ok (some t) → ws ≤ t) :
    processPage ws m st pg = cursorDecision st (st.acc ++ pg.data) pg.next_token := by
  simp only [processPage, if_neg h1, if_neg h2]
  cases ho : oldestDt pg.data with
  | exn => rfl
  | ok o =>
    cases o with
    | none => rfl
    | some t => exact if_neg (not_lt.mpr (h3 t ho))

lemma processPage_stop_oldest (ws : Int) (m : Nat) (st : FetchState) (pg : Page) (t : Int)
    (h1 : ¬(pg.data = [] ∨ pg.result_count.getD 0 = 0))
    (h2 : ¬ pg.data.length < m)
    (ho : oldestDt pg.data = PyRes.ok (some t)) (hlt : t < ws) :
    processPage ws m st pg = StepRes.stop (st.acc ++ pg.data) := by
  simp only [processPage, if_neg h1, if_neg h2, ho]
  rw [if_pos hlt]

lemma cursorDecision_next_inv (st : FetchState) (a : List Post) (tok? : Option String)
    (st2 : FetchState) (h : cursorDecision st a tok? = StepRes.next st2) :
    ∃ tok, tok? = some tok ∧ tok ∉ st.seenTokens ∧
      st2 = ⟨a, some tok, tok :: st.seenTokens, st.pageIdx + 1⟩ := by
  cases tok? with
  | none => exact StepRes.noConfusion h
  | some tok =>
    by_cases hm : tok ∈ st.seenTokens
    · rw [cursorDecision_seen st a tok hm] at h
      exact StepRes.noConfusion h
    · rw [cursorDecision_fresh st a tok hm] at h
      exact ⟨tok, rfl, hm, (StepRes.next.inj h).symm⟩

lemma processPage_next_inv (ws : Int) (m : Nat) (st : FetchState) (pg : Page)
    (st2 : FetchState) (h : processPage ws m st pg = StepRes.next st2) :
    ∃ tok, pg.next_token = some tok ∧ tok ∉ st.seenTokens ∧
      st2 = ⟨st.acc ++ pg.data, some tok, tok :: st.seenTokens, st.pageIdx + 1⟩ := by
  simp only [processPage] at h
  split at h
  · exact StepRes.noConfusion h
  · split at h
    · exact StepRes.noConfusion h
    · split at h
      · split at h
        · exact StepRes.noConfusion h
        · exact cursorDecision_next_inv st _ _ st2 h
      · exact cursorDecision_next_inv st _ _ st2 h

/-! ### Helper lemmas about the fetch loop -/

lemma fetchLoop_ok_stop (ws : Int) (m : Nat) (st : FetchState) (pg : Page)
    (rs : List Response) (a : List Post) (h : processPage ws m st pg = StepRes.stop a) :
    fetchLoop ws m st (Response.ok pg :: rs) = FetchOutcome.done a := by
  simp only [fetchLoop, h]

lemma fetchLoop_ok_next (ws : Int) (m : Nat) (st st2 : FetchState) (pg : Page)
    (rs : List Response) (h : processPage ws m st pg = StepRes.next st2) :
    fetchLoop ws m st (Response.ok pg :: rs) = fetchLoop ws m st2 rs := by
  simp only [fetchLoop, h]

lemma fetchLoop_throttle (ws : Int) (m : Nat) (st : FetchState) (ra : Option String)
    (rs : List Response) :
    fetchLoop ws m st (Response.throttle ra :: rs) = fetchLoop ws m st rs := rfl

lemma fetchLoop_httpError (ws : Int) (m : Nat) (st : FetchState) (s : Nat)
    (rs : List Response) :
    fetchLoop ws m st (Response.httpError s :: rs) = FetchOutcome.done st.acc := rfl

lemma okRequestTokens_ok_stop (ws : Int) (m : Nat) (st : FetchState) (pg : Page)
    (rs : List Response) (a : List Post) (h : processPage ws m st pg = StepRes.stop a) :
    okRequestTokens ws m st (Response.ok pg :: rs) = [st.nextToken] := by
  simp only [okRequestTokens, h]

lemma okRequestTokens_ok_next (ws : Int) (m : Nat) (st st2 : FetchState) (pg : Page)
    (rs : List Response) (h : processPage ws m st pg = StepRes.next st2) :
    okRequestTokens ws m st (Response.ok pg :: rs) =
      st.nextToken :: okRequestTokens ws m st2 rs := by
  simp only [okRequestTokens, h]

lemma okTokens_mem_seen (ws : Int) (m : Nat) :
    ∀ (rs : List Response) (st : FetchState) (u : String),
      u ∈ (okRequestTokens ws m st rs).filterMap id → u ∈ st.seenTokens →
      st.nextToken = some u := by
  intro rs
  induction rs with
  | nil =>
    intro st u hu _
    simp [okRequestTokens] at hu
  | cons r rs ih =>
    intro st u hu hseen
    cases r with
    | throttle ra => exact ih st u hu hseen
    | httpError s => simp [okRequestTokens] at hu
    | ok pg =>
      cases hp : processPage ws m st pg with
      | stop a =>
        rw [okRequestTokens_ok_stop ws m st pg rs a hp] at hu
        cases hnt : st.nextToken with
        | none => simp [hnt] at hu
        | some t =>
          simp only [hnt, List.filterMap, id] at hu
          simp at hu
          rw [hu]
      | next st2 =>
        rw [okRequestTokens_ok_next ws m st st2 pg rs hp] at hu
        obtain ⟨tok, htok, hfresh, hst2⟩ := processPage_next_inv ws m st pg st2 hp
        cases hnt : st.nextToken with
        | none =>
          rw [hnt] at hu
          simp only [List.filterMap_cons, id] at hu
          have hu2 : u ∈ (okRequestTokens ws m st2 rs).filterMap id := hu
          have hseen2 : u ∈ st2.seenTokens := by
            rw [hst2]
            exact List.mem_cons_of_mem tok hseen
          have := ih st2 u hu2 hseen2
          rw [hst2] at this
          simp only at this
          have : tok = u := Option.some.inj this
          rw [this] at hfresh
          exact absurd hseen hfresh
        | some t =>
          rw [hnt] at hu
          simp only [List.filterMap_cons, id] at hu
          rcases List.mem_cons.mp hu with h | h
          · rw [h]
          · have hseen2 : u ∈ st2.seenTokens := by
              rw [hst2]
              exact List.mem_cons_of_mem tok hseen
            have := ih st2 u h hseen2
            rw [hst2] at this
            simp only at this
            have : tok = u := Option.some.inj this
            rw [this] at hfresh
            exact absurd hseen hfresh

lemma okTokens_nodup (ws : Int) (m : Nat) :
    ∀ (rs : List Response) (st : FetchState),
      (∀ t, st.nextToken = some t → t ∈ st.seenTokens) →
      ((okRequestTokens ws m st rs).filterMap id).Nodup := by
  intro rs
  induction rs with
  | nil =>
    intro st _
    simp [okRequestTokens]
  | cons r rs ih =>
    intro st hinv
    cases r with
    | throttle ra => exact ih st hinv
    | httpError s => simp [okRequestTokens]
    | ok pg =>
      cases hp : processPage ws m st pg with
      | stop a =>
        rw [okRequestTokens_ok_stop ws m st pg rs a hp]
        cases st.nextToken <;> simp
      | next st2 =>
        rw [okRequestTokens_ok_next ws m st st2 pg rs hp]
        obtain ⟨tok, htok, hfresh, hst2⟩ := processPage_next_inv ws m st pg st2 hp
        have hinv2 : ∀ t, st2.nextToken = some t → t ∈ st2.seenTokens := by
          intro t ht
          rw [hst2] at ht ⊢
          simp only at ht ⊢
          rw [← Option.some.inj ht]
          exact List.mem_cons_self tok st.seenTokens
        have hrest : ((okRequestTokens ws m st2 rs).filterMap id).Nodup := ih st2 hinv2
        cases hnt : st.nextToken with
        | none =>
          simp only [List.filterMap_cons, id]
          exact hrest
        | some t =>
          simp only [List.filterMap_cons, id]
          refine List.Nodup.cons ?_ hrest
          intro hmem
          have hseen2 : t ∈ st2.seenTokens := by
            rw [hst2]
            exact List.mem_cons_of_mem tok (hinv t hnt)
          have := okTokens_mem_seen ws m rs st2 t hmem hseen2
          rw [hst2] at this
          simp only at this
          have heq : tok = t := Option.some.inj this
          rw [heq] at hfresh
          exact absurd (hinv t hnt) hfresh

lemma seen_length_le_card (S : Finset String) (l : List String)
    (hnd : l.Nodup) (hsub : ∀ t ∈ l, t ∈ S) : l.length ≤ S.card := by
  have h1 : l.toFinset.card = l.length := List.toFinset_card_of_nodup hnd
  have h2 : l.toFinset ⊆ S := by
    intro x hx
    exact hsub x (List.mem_toFinset.mp hx)
  rw [← h1]
  exact Finset.card_le_card h2

lemma loop_done_of_enough (ws : Int) (m : Nat) (S : Finset String) :
    ∀ (rs : List Response) (st : FetchState),
      rs.all (respOkWithTokens S) = true →
      st.seenTokens.Nodup →
      (∀ t ∈ st.seenTokens, t ∈ S) →
      S.card < rs.length + st.seenTokens.length →
      ∃ acc, fetchLoop ws m st rs = FetchOutcome.done acc := by
  intro rs
  induction rs with
  | nil =>
    intro st _ hnd hsub hc
    have := seen_length_le_card S st.seenTokens hnd hsub
    simp only [List.length_nil, Nat.zero_add] at hc
    omega
  | cons r rs ih =>
    intro st hall hnd hsub hc
    have hallr : respOkWithTokens S r = true := by
      have := List.all_eq_true.mp hall
      exact this r (List.mem_cons_self r rs)
    have halls : rs.all (respOkWithTokens S) = true := by
      rw [List.all_eq_true]
      intro x hx
      exact List.all_eq_true.mp hall x (List.mem_cons_of_mem r hx)
    cases r with
    | throttle ra => simp [respOkWithTokens] at hallr
    | httpError s => exact ⟨st.acc, fetchLoop_httpError ws m st s rs⟩
    | ok pg =>
      cases hp : processPage ws m st pg with
      | stop a => exact ⟨a, fetchLoop_ok_stop ws m st pg rs a hp⟩
      | next st2 =>
        obtain ⟨tok, htok, hfresh, hst2⟩ := processPage_next_inv ws m st pg st2 hp
        have htokS : tok ∈ S := by
          simp only [respOkWithTokens, htok] at hallr
          exact of_decide_eq_true hallr
        have hnd2 : st2.seenTokens.Nodup := by
          rw [hst2]
          exact List.Nodup.cons hfresh hnd
        have hsub2 : ∀ t ∈ st2.seenTokens, t ∈ S := by
          rw [hst2]
          intro t ht
          rcases List.mem_cons.mp ht with h | h
          · rw [h]; exact htokS
          · exact hsub t h
        have hc2 : S.card < rs.length + st2.seenTokens.length := by
          rw [hst2]
          simp only [List.length_cons]
          simp only [List.length_cons] at hc
          omega
        obtain ⟨acc, hacc⟩ := ih st2 halls hnd2 hsub2 hc2
        exact ⟨acc, by rw [fetchLoop_ok_next ws m st st2 pg rs hp]; exact hacc⟩

/-! ### Helper lemmas about the month bounds -/

lemma days_before_month_succ (y m : Nat) (h1 : 1 ≤ m) (h2 : m ≤ 12) :
    days_before_month y (m + 1) = days_before_month y m + monthrange_days y m := by
  interval_cases m <;> rfl

set_option maxHeartbeats 1000000 in
lemma days_before_year_succ (y : Nat) (hy : 1 ≤ y) :
    days_before_year (y + 1) = days_before_year y + (if isleap y then 366 else 365) := by
  obtain ⟨z, rfl⟩ : ∃ z, y = z + 1 := ⟨y - 1, by omega⟩
  simp only [days_before_year, Nat.add_sub_cancel]
  cases hL : isleap (z + 1) with
  | true =>
    simp only [isleap, Bool.and_eq_true, Bool.or_eq_true, decide_eq_true_eq] at hL
    simp
    obtain ⟨h4, h2⟩ := hL
    rcases h2 with h100 | h400 <;> omega
  | false =>
    simp only [isleap, Bool.and_eq_false_iff, Bool.or_eq_false_iff, decide_eq_false_iff_not,
      not_not] at hL
    simp
    rcases hL with h4 | ⟨h100, h400⟩ <;> omega

lemma days_in_year (y : Nat) :
    days_before_month y 13 = if isleap y then 366 else 365 := by
  have h : days_before_month y 13 =
      0 + 31 + (if isleap y then 29 else 28) + 31 + 30 + 31 + 30 + 31 + 31 + 30 + 31 + 30 + 31 :=
    rfl
  rw [h]
  cases hL : isleap y <;> norm_num

lemma month_end_eq (y m : Nat) (h1 : 1 ≤ m) (h2 : m ≤ 11) :
    dt_epoch y m (monthrange_days y m) 23 59 59 + 1 = dt_epoch y (m + 1) 1 0 0 0 := by
  have hd := days_before_month_succ y m h1 (by omega)
  simp only [dt_epoch, toordinal, hd]
  omega

lemma year_end_eq (y : Nat) (hy : 1 ≤ y) :
    dt_epoch y 12 (monthrange_days y 12) 23 59 59 + 1 = dt_epoch (y + 1) 1 1 0 0 0 := by
  have h13 : days_before_month y 13 = days_before_month y 12 + monthrange_days y 12 :=
    days_before_month_succ y 12 (by omega) (by omega)
  have hyr := days_in_year y
  have hdy := days_before_year_succ y hy
  have h0 : days_before_month (y + 1) 1 = 0 := rfl
  cases hL : isleap y with
  | true =>
    rw [hL] at hyr hdy
    simp at hyr hdy
    simp only [dt_epoch, toordinal, h0, hdy]
    omega
  | false =>
    rw [hL] at hyr hdy
    simp at hyr hdy
    simp only [dt_epoch, toordinal, h0, hdy]
    omega

lemma monthrange_days_pos (y m : Nat) (h1 : 1 ≤ m) (h2 : m ≤ 12) :
    1 ≤ monthrange_days y m := by
  interval_cases m <;> simp only [monthrange_days] <;> (try split) <;> omega

/-! ### Helper lemmas about the window guardrail and the backoff -/

lemma windowFilter_no_malformed (ws we : Int) :
    ∀ (l : List Post), (∀ p ∈ l, p.created_at ≠ TsField.malformed) →
      windowFilter ws we l = PyRes.ok (l.filter (fun p => keep_pred ws we p)) := by
  intro l
  induction l with
  | nil => intro _; rfl
  | cons p ps ih =>
    intro h
    have hp : p.created_at ≠ TsField.malformed := h p (List.mem_cons_self p ps)
    have hps : windowFilter ws we ps = PyRes.ok (ps.filter (fun q => keep_pred ws we q)) :=
      ih (fun q hq => h q (List.mem_cons_of_mem p hq))
    cases hc : p.created_at with
    | malformed => exact absurd hc hp
    | missing =>
      simp only [windowFilter, in_window, hc, hps, List.filter_cons, keep_pred]
    | parsed t =>
      simp only [windowFilter, in_window, hc, hps, List.filter_cons, keep_pred]

lemma windowFilter_malformed (ws we : Int) :
    ∀ (l : List Post), (∃ p ∈ l, p.created_at = TsField.malformed) →
      windowFilter ws we l = PyRes.exn := by
  intro l
  induction l with
  | nil => rintro ⟨p, hp, _⟩; exact absurd hp (List.not_mem_nil p)
  | cons p ps ih =>
    rintro ⟨q, hq, hmal⟩
    rcases List.mem_cons.mp hq with h | h
    · rw [h] at hmal
      simp only [windowFilter, in_window, hmal]
    · have := ih ⟨q, h, hmal⟩
      simp only [windowFilter, this]
      cases hw : in_window ws we p <;> rfl

/-- Claim C3: `fetch_user_posts_for_month` stops fetching further pages
immediately after any page whose item list is empty, whose declared
`meta.result_count` equals zero (even when the data list is non-empty:
`result_count` governs, and the data is still kept in the accumulation), or
that returned strictly fewer items than the requested page size; in
particular, with a first page smaller than the page size the fetch stops
after exactly one page. -/
theorem c3_early_stop_conditions :
    (∀ (ws : Int) (m : Nat) (st : FetchState) (pg : Page),
       pg.data = [] ∨ pg.result_count.getD 0 = 0 ∨ pg.data.length < m →
       processPage ws m st pg = StepRes.stop (st.acc ++ pg.data)) ∧
    (∀ (ws : Int) (m : Nat) (pg : Page) (rs : List Response),
       pg.data.length < m →
       fetchLoop ws m initState (Response.ok pg :: rs) = FetchOutcome.done pg.data) := by
  constructor
  · exact processPage_stop_early
  · intro ws m pg rs h
    have hstop := processPage_stop_early ws m initState pg (Or.inr (Or.inr h))
    rw [fetchLoop_ok_stop ws m initState pg rs _ hstop]
    simp [initState]

/-- Witness for C3: a short first page (1 item, page size 5, non-zero
result count, cursor present) makes the whole fetch stop after that single
page, keeping its item; a page with `result_count = 0` but non-empty data
also stops, keeping its data. -/
theorem c3_witness :
    fetchLoop 0 5 initState [Response.ok ⟨[postMissing 1], some 1, some "a"⟩]
      = FetchOutcome.done [postMissing 1] ∧
    processPage 0 1 initState ⟨[postMissing 1], some 0, some "a"⟩
      = StepRes.stop (initState.acc ++ [postMissing 1]) :=
  ⟨c3_early_stop_conditions.2 0 5 ⟨[postMissing 1], some 1, some "a"⟩ [] (by decide),
   c3_early_stop_conditions.1 0 1 initState ⟨[postMissing 1], some 0, some "a"⟩
     (by decide)⟩

/-- Claim C6: on any response status during pagination other than 200, 429
or 503 (the `httpError` responses of the model), the fetch logs the error
and stops entirely, returning the posts accumulated so far rather than
raising: the loop yields `done st.acc`, and the whole
`fetch_user_posts_for_month` then returns the window-filtered
accumulation. -/
theorem c6_other_status_stops :
    ∀ (ws we : Int) (m : Nat) (st : FetchState) (s : Nat) (rs : List Response),
      fetchLoop ws m st (Response.httpError s :: rs) = FetchOutcome.done st.acc ∧
      fetch_user_posts_for_month ws we m (Response.httpError s :: rs) =
        some (windowFilter ws we initState.acc) := by
  intro ws we m st s rs
  exact ⟨rfl, rfl⟩

/-- Claim C10: a 200 page whose `meta` lacks the `result_count` field is
treated as `result_count = 0` (`meta.get("result_count", 0)`): pagination
stops immediately after that page even when its item list is non-empty and
a `next_token` is present, and the page's items are still kept in the
accumulation. -/
theorem c10_missing_result_count :
    ∀ (ws : Int) (m : Nat) (st : FetchState) (pg : Page) (rs : List Response),
      pg.result_count = none →
      processPage ws m st pg = StepRes.stop (st.acc ++ pg.data) ∧
      fetchLoop ws m st (Response.ok pg :: rs) = FetchOutcome.done (st.acc ++ pg.data) := by
  intro ws m st pg rs h
  have hz : pg.result_count.getD 0 = 0 := by rw [h]; rfl
  have hstop := processPage_stop_early ws m st pg (Or.inr (Or.inl hz))
  exact ⟨hstop, fetchLoop_ok_stop ws m st pg rs _ hstop⟩

/-- Witness for C10: `pgC10` has one item, a fresh cursor `"n"` and no
`result_count`; the step stops keeping the item. -/
theorem c10_witness :
    processPage 0 5 initState pgC10 = StepRes.stop (initState.acc ++ pgC10.data) ∧
    fetchLoop 0 5 initState [Response.ok pgC10] =
      FetchOutcome.done (initState.acc ++ pgC10.data) :=
  c10_missing_result_count 0 5 initState pgC10 [] rfl

/-- Counterexample to C9 as stated: the spec's clamp "into the range 1-100"
(`spec_clamp_1_100`) differs from the source's
`min(max(args.per_page, 10), 100)` at `per_page = 5`: the source raises 5
to 10, the claimed clamp would keep it at 5. -/
theorem c9_counterexample : max_per_request_arg 5 ≠ spec_clamp_1_100 5 := by decide

/-- Claim C9, amended: the `max_results` value used in timeline page
requests is the caller-supplied per-page size clamped into the range
10-100 (values below 10 raised to 10, values above 100 lowered to 100,
in-range values unchanged). -/
theorem c9_amended_clamp :
    ∀ p : Int,
      10 ≤ max_per_request_arg p ∧
      max_per_request_arg p ≤ 100 ∧
      (10 ≤ p → p ≤ 100 → max_per_request_arg p = p) ∧
      (p < 10 → max_per_request_arg p = 10) ∧
      (100 < p → max_per_request_arg p = 100) := by
  intro p
  unfold max_per_request_arg
  refine ⟨le_min (le_max_right p 10) (by norm_num), min_le_right _ _, ?_, ?_, ?_⟩
  · intro h1 h2
    rw [max_eq_left h1, min_eq_left h2]
  · intro h
    rw [max_eq_right (le_of_lt h), min_eq_left (by norm_num)]
  · intro h
    rw [max_eq_left (by omega), min_eq_right (le_of_lt h)]

/-- Witness for C9 (amended): 50 is kept, 3 is raised to 10, 250 is lowered
to 100. -/
theorem c9_witness :
    max_per_request_arg 50 = 50 ∧ max_per_request_arg 3 = 10 ∧
      max_per_request_arg 250 = 100 :=
  ⟨(c9_amended_clamp 50).2.2.1 (by decide) (by decide),
   (c9_amended_clamp 3).2.2.2.1 (by decide),
   (c9_amended_clamp 250).2.2.2.2 (by decide)⟩

/-- Counterexample to C7 as stated: `postMal` has a present but unparseable
`created_at`, so it "has no parseable created_at timestamp"; the claim says
the filter keeps such a post and never fails on it, but the source's
`in_window` calls `datetime.fromisoformat` unguarded and the comprehension
raises (`exn`) instead of keeping the post. -/
theorem c7_counterexample : windowFilter 0 10 [postMal] = PyRes.exn := rfl

/-- Claim C7, amended: the window filter is pure and order-preserving; on a
list whose items all have an absent/empty or parseable `created_at` it
returns exactly the in-order sublist of posts that either lack a
`created_at` value (fail open) or whose timestamp `t` satisfies
`start <= t < end`; a post with an absent/empty `created_at` is always
kept; but a present, unparseable `created_at` anywhere in the list makes
the filter raise instead of failing open. -/
theorem c7_amended_window_filter :
    (∀ (ws we : Int) (l : List Post),
       (∀ p ∈ l, p.created_at ≠ TsField.malformed) →
       windowFilter ws we l = PyRes.ok (l.filter (fun p => keep_pred ws we p))) ∧
    (∀ (ws we : Int) (p : Post), p.created_at = TsField.missing →
       keep_pred ws we p = true ∧ in_window ws we p = PyRes.ok true) ∧
    (∀ (ws we : Int) (l : List Post),
       (∃ p ∈ l, p.created_at = TsField.malformed) →
       windowFilter ws we l = PyRes.exn) := by
  refine ⟨windowFilter_no_malformed, ?_, windowFilter_malformed⟩
  intro ws we p hp
  constructor
  · simp [keep_pred, hp]
  · simp [in_window, hp]

/-- Witness for C7 (amended): a window `[0, 10)` applied to a timestampless
post, an in-window post (5), and an out-of-window post (25) keeps the first
two in order; a list containing `postMal` raises. -/
theorem c7_witness :
    windowFilter 0 10 [postMissing 1, postAt 2 5, postAt 3 25] =
      PyRes.ok [postMissing 1, postAt 2 5] ∧
    windowFilter 0 10 [postAt 2 5, postMal] = PyRes.exn :=
  ⟨by
    have h := c7_amended_window_filter.1 0 10 [postMissing 1, postAt 2 5, postAt 3 25]
      (by decide)
    rw [h]
    rfl,
   c7_amended_window_filter.2.2 0 10 [postAt 2 5, postMal]
     ⟨postMal, by decide, rfl⟩⟩

/-- Claim C8: for every valid (year, month) pair, the month bounds have
`start` = the first instant (midnight UTC) of day 1 of that month and
`end` = the first instant of day 1 of the following month (December rolls
over to January of the next year), across month lengths of 28-31 days, so
that `end` is exactly one calendar month after `start` and
`start < end`. -/
theorem c8_month_bounds :
    ∀ (y m : Nat), 1 ≤ y → 1 ≤ m → m ≤ 12 →
      (iso_month_bounds y m).1 = dt_epoch y m 1 0 0 0 ∧
      (iso_month_bounds y m).2 =
        dt_epoch (if m = 12 then y + 1 else y) (if m = 12 then 1 else m + 1) 1 0 0 0 ∧
      (iso_month_bounds y m).1 < (iso_month_bounds y m).2 := by
  intro y m hy hm1 hm2
  refine ⟨rfl, ?_, ?_⟩
  · by_cases h12 : m = 12
    · rw [if_pos h12, if_pos h12, h12]
      exact year_end_eq y hy
    · rw [if_neg h12, if_neg h12]
      exact month_end_eq y m hm1 (by omega)
  · have hmr := monthrange_days_pos y m hm1 hm2
    simp only [iso_month_bounds, dt_epoch, toordinal]
    omega

/-- Witness for C8 at the year rollover: December 2023 runs from
2023-12-01T00:00:00Z up to (exclusive) 2024-01-01T00:00:00Z. -/
theorem c8_witness :
    (iso_month_bounds 2023 12).1 = dt_epoch 2023 12 1 0 0 0 ∧
    (iso_month_bounds 2023 12).2 = dt_epoch 2024 1 1 0 0 0 ∧
    (iso_month_bounds 2023 12).1 < (iso_month_bounds 2023 12).2 := by
  have h := c8_month_bounds 2023 12 (by decide) (by decide) (by decide)
  simpa using h

lemma isMalformed_iff (ts : TsField) : ts.isMalformed = true ↔ ts = TsField.malformed := by
  cases ts <;> simp [TsField.isMalformed]

/-- Counterexample to C4 as stated: on `pgC4` (window start 100, page size
2) the minimum *parseable* `created_at` is 50, earlier than the window
start, so the claim says the fetch stops; but the unparseable `created_at`
of the page's other item makes the `min(...)` expression raise, the
`except` clause skips the whole condition, and the loop continues to the
next page with cursor `"a"`. -/
theorem c4_counterexample :
    minParseable pgC4.data = some 50 ∧ (50 : Int) < 100 ∧
    processPage 100 2 initState pgC4 =
      StepRes.next ⟨pgC4.data, some "a", ["a"], 1⟩ :=
  ⟨rfl, by decide, by decide⟩

/-- Claim C4, amended: if every non-empty `created_at` of the page parses
and their minimum is earlier than the window start, the fetch stops (page
still kept); if *any* item's non-empty `created_at` fails to parse — not
only when all fail — the raised error is caught and this stop condition is
skipped (not fatal), the remaining cursor conditions still applying; the
condition is likewise skipped when no item carries a timestamp. -/
theorem c4_amended_oldest_condition :
    (∀ (ws : Int) (m : Nat) (st : FetchState) (pg : Page) (t : Int),
       ¬(pg.data = [] ∨ pg.result_count.getD 0 = 0) → ¬ pg.data.length < m →
       oldestDt pg.data = PyRes.ok (some t) → t < ws →
       processPage ws m st pg = StepRes.stop (st.acc ++ pg.data)) ∧
    (∀ (ws : Int) (m : Nat) (st : FetchState) (pg : Page),
       ¬(pg.data = [] ∨ pg.result_count.getD 0 = 0) → ¬ pg.data.length < m →
       (oldestDt pg.data = PyRes.exn ∨ oldestDt pg.data = PyRes.ok none) →
       processPage ws m st pg = cursorDecision st (st.acc ++ pg.data) pg.next_token) ∧
    (∀ posts : List Post,
       oldestDt posts = PyRes.exn ↔ ∃ p ∈ posts, p.created_at = TsField.malformed) := by
  refine ⟨processPage_stop_oldest, ?_, ?_⟩
  · intro ws m st pg h1 h2 hc
    apply processPage_no_early_stop ws m st pg h1 h2
    intro t ht
    rcases hc with hc | hc
    · rw [hc] at ht
      exact PyRes.noConfusion ht
    · rw [hc] at ht
      exact Option.noConfusion (PyRes.ok.inj ht)
  · intro posts
    constructor
    · intro h
      by_cases ha : posts.any (fun p => p.created_at.isMalformed)
      · obtain ⟨p, hp, hm⟩ := List.any_eq_true.mp ha
        exact ⟨p, hp, (isMalformed_iff p.created_at).mp hm⟩
      · rw [oldestDt, if_neg ha] at h
        exact PyRes.noConfusion h
    · rintro ⟨p, hp, hm⟩
      rw [oldestDt, if_pos]
      exact List.any_eq_true.mpr ⟨p, hp, (isMalformed_iff p.created_at).mpr hm⟩

/-- Witness for C4 (amended): a full single-item page created at 5 with
window start 10 stops the fetch; on `pgC4` (one parse failure among the
items) the condition is skipped and the cursor rules decide; and
`oldestDt` raises on `pgC4.data` precisely because of its malformed
item. -/
theorem c4_witness :
    processPage 10 1 initState (⟨[postAt 1 5], some 1, some "a"⟩ : Page) =
      StepRes.stop (initState.acc ++ [postAt 1 5]) ∧
    processPage 100 2 initState pgC4 =
      cursorDecision initState (initState.acc ++ pgC4.data) pgC4.next_token ∧
    oldestDt pgC4.data = PyRes.exn :=
  ⟨c4_amended_oldest_condition.1 10 1 initState ⟨[postAt 1 5], some 1, some "a"⟩ 5
     (by decide) (by decide) (by decide) (by decide),
   c4_amended_oldest_condition.2.1 100 2 initState pgC4 (by decide) (by decide)
     (Or.inl (by decide)),
   (c4_amended_oldest_condition.2.2 pgC4.data).mpr ⟨postMal, by decide, rfl⟩⟩

/-- Claim C2: the items of every successfully decoded 200 page are appended
to the accumulation before any stopping condition is evaluated (the step
result always carries `st.acc ++ pg.data`, whichever branch fires), so a
page that triggers a stop condition is still kept; and for a server
returning two full pages then a short third page, the accumulation before
window filtering is the concatenation of the three pages' items in request
order. -/
theorem c2_append_before_stop :
    (∀ (ws : Int) (m : Nat) (st : FetchState) (pg : Page),
       (processPage ws m st pg).accOf = st.acc ++ pg.data) ∧
    (∀ (ws : Int) (m : Nat) (pg1 pg2 pg3 : Page) (t1 t2 : String) (rest : List Response),
       0 < m → pg1.data.length = m → pg2.data.length = m → pg3.data.length < m →
       pg1.result_count.getD 0 ≠ 0 → pg2.result_count.getD 0 ≠ 0 →
       (∀ t, oldestDt pg1.data = PyRes.ok (some t) → ws ≤ t) →
       (∀ t, oldestDt pg2.data = PyRes.ok (some t) → ws ≤ t) →
       pg1.next_token = some t1 → pg2.next_token = some t2 → t2 ≠ t1 →
       fetchLoop ws m initState
           (Response.ok pg1 :: Response.ok pg2 :: Response.ok pg3 :: rest) =
         FetchOutcome.done (pg1.data ++ pg2.data ++ pg3.data)) := by
  constructor
  · exact processPage_accOf
  · intro ws m pg1 pg2 pg3 t1 t2 rest hm hl1 hl2 hl3 hr1 hr2 ho1 ho2 ht1 ht2 hne
    have hne1 : ¬(pg1.data = [] ∨ pg1.result_count.getD 0 = 0) := by
      rintro (he | hz)
      · rw [he] at hl1
        simp at hl1
        omega
      · exact hr1 hz
    have hne2 : ¬(pg2.data = [] ∨ pg2.result_count.getD 0 = 0) := by
      rintro (he | hz)
      · rw [he] at hl2
        simp at hl2
        omega
      · exact hr2 hz
    have hlt1 : ¬ pg1.data.length < m := by omega
    have hlt2 : ¬ pg2.data.length < m := by omega
    have e1 : processPage ws m initState pg1 =
        StepRes.next ⟨pg1.data, some t1, [t1], 1⟩ := by
      rw [processPage_no_early_stop ws m initState pg1 hne1 hlt1 ho1, ht1,
        cursorDecision_fresh initState (initState.acc ++ pg1.data) t1 (by simp [initState])]
      simp [initState]
    have e2 : processPage ws m ⟨pg1.data, some t1, [t1], 1⟩ pg2 =
        StepRes.next ⟨pg1.data ++ pg2.data, some t2, [t2, t1], 2⟩ := by
      rw [processPage_no_early_stop ws m ⟨pg1.data, some t1, [t1], 1⟩ pg2 hne2 hlt2 ho2, ht2,
        cursorDecision_fresh ⟨pg1.data, some t1, [t1], 1⟩ _ t2 (by simpa using hne)]
    have e3 : processPage ws m ⟨pg1.data ++ pg2.data, some t2, [t2, t1], 2⟩ pg3 =
        StepRes.stop (pg1.data ++ pg2.data ++ pg3.data) :=
      processPage_stop_early ws m ⟨pg1.data ++ pg2.data, some t2, [t2, t1], 2⟩ pg3
        (Or.inr (Or.inr hl3))
    rw [fetchLoop_ok_next ws m initState ⟨pg1.data, some t1, [t1], 1⟩ pg1 _ e1,
      fetchLoop_ok_next ws m ⟨pg1.data, some t1, [t1], 1⟩
        ⟨pg1.data ++ pg2.data, some t2, [t2, t1], 2⟩ pg2 _ e2,
      fetchLoop_ok_stop ws m ⟨pg1.data ++ pg2.data, some t2, [t2, t1], 2⟩ pg3 rest _ e3]

/-- Witness for C2: two full timestampless pages (cursors `"a"`, `"b"`)
then a short page accumulate all five items in request order; and the
single-step accumulation fact at the short page. -/
theorem c2_witness :
    fetchLoop 0 2 initState [Response.ok pgW1, Response.ok pgW2, Response.ok pgW3] =
      FetchOutcome.done (pgW1.data ++ pgW2.data ++ pgW3.data) ∧
    (processPage 0 2 initState pgW3).accOf = initState.acc ++ pgW3.data :=
  ⟨c2_append_before_stop.2 0 2 pgW1 pgW2 pgW3 "a" "b" [] (by decide) (by decide)
     (by decide) (by decide) (by decide) (by decide)
     (by
       intro t ht
       rw [show oldestDt pgW1.data = PyRes.ok none from rfl] at ht
       simp at ht)
     (by
       intro t ht
       rw [show oldestDt pgW2.data = PyRes.ok none from rfl] at ht
       simp at ht)
     rfl rfl (by decide),
   c2_append_before_stop.1 0 2 initState pgW3⟩

/-- Claim C1: cursor protocol of the fetch loop.  When no earlier stop
condition fires, the iteration ends in the cursor handling: a 200 page
without a cursor stops the loop; a cursor already in the seen-set stops the
loop (cycle protection); a fresh cursor is recorded in the seen-set and
becomes the current cursor.  Consequently, starting from the initial state,
no two 200-answered page requests of one fetch carry the same cursor; and
against any throttle-free script whose cursors are drawn from a finite set
`S`, the loop reaches a `break` within `S.card + 1` 200 pages (any script
longer than `S.card` ends in `done`). -/
theorem c1_cursor_protocol :
    (∀ (ws : Int) (m : Nat) (st : FetchState) (pg : Page),
       ¬(pg.data = [] ∨ pg.result_count.getD 0 = 0) → ¬ pg.data.length < m →
       (∀ t, oldestDt pg.data = PyRes.ok (some t) → ws ≤ t) →
       processPage ws m st pg = cursorDecision st (st.acc ++ pg.data) pg.next_token) ∧
    (∀ (st : FetchState) (a : List Post), cursorDecision st a none = StepRes.stop a) ∧
    (∀ (st : FetchState) (a : List Post) (tok : String), tok ∈ st.seenTokens →
       cursorDecision st a (some tok) = StepRes.stop a) ∧
    (∀ (st : FetchState) (a : List Post) (tok : String), tok ∉ st.seenTokens →
       cursorDecision st a (some tok) =
         StepRes.next ⟨a, some tok, tok :: st.seenTokens, st.pageIdx + 1⟩) ∧
    (∀ (ws : Int) (m : Nat) (rs : List Response),
       ((okRequestTokens ws m initState rs).filterMap id).Nodup) ∧
    (∀ (ws : Int) (m : Nat) (S : Finset String) (rs : List Response),
       rs.all (respOkWithTokens S) = true → S.card < rs.length →
       ∃ acc, fetchLoop ws m initState rs = FetchOutcome.done acc) := by
  refine ⟨processPage_no_early_stop, cursorDecision_none, cursorDecision_seen,
    cursorDecision_fresh, ?_, ?_⟩
  · intro ws m rs
    exact okTokens_nodup ws m rs initState (fun t ht => Option.noConfusion ht)
  · intro ws m S rs hall hc
    exact loop_done_of_enough ws m S rs initState hall List.nodup_nil
      (fun t ht => absurd ht (List.not_mem_nil t)) (by simpa [initState] using hc)

/-- Witness for C1: the cursor cases at concrete inputs, the distinctness
of the request cursors of a concrete run, and a 2-page script over the
single-cursor set `{"a"}` that must (and does) finish in `done`. -/
theorem c1_witness :
    processPage 0 2 initState pgW1 =
      cursorDecision initState (initState.acc ++ pgW1.data) pgW1.next_token ∧
    cursorDecision initState [] none = StepRes.stop [] ∧
    cursorDecision (⟨[], none, ["a"], 3⟩ : FetchState) [] (some "a") = StepRes.stop [] ∧
    cursorDecision initState [] (some "b") = StepRes.next ⟨[], some "b", ["b"], 1⟩ ∧
    ((okRequestTokens 0 2 initState
        [Response.ok pgW1, Response.ok pgW2, Response.ok pgW3]).filterMap id).Nodup ∧
    (∃ acc, fetchLoop 0 2 initState [Response.ok pgW1, Response.ok pgW1] =
      FetchOutcome.done acc) :=
  ⟨c1_cursor_protocol.1 0 2 initState pgW1 (by decide) (by decide)
     (by
       intro t ht
       rw [show oldestDt pgW1.data = PyRes.ok none from rfl] at ht
       simp at ht),
   c1_cursor_protocol.2.1 initState [],
   c1_cursor_protocol.2.2.1 ⟨[], none, ["a"], 3⟩ [] "a" (by decide),
   c1_cursor_protocol.2.2.2.1 initState [] "b" (by decide),
   c1_cursor_protocol.2.2.2.2.1 0 2 [Response.ok pgW1, Response.ok pgW2, Response.ok pgW3],
   c1_cursor_protocol.2.2.2.2.2 0 2 {"a"} [Response.ok pgW1, Response.ok pgW1]
     (by decide) (by decide)⟩
